import Mathlib

/-
Shallow embedding of src/gen_release_notes.py (release-notes generator).

Strings are modelled as lists of characters (Str := List Char).  Python
regular-expression searches are translated into explicit scanning functions;
re.IGNORECASE is modelled by ASCII case folding (the commit titles and all
patterns involved are ASCII).  Pythons \s is modelled by Char.isWhitespace.
Fallible code (IndexError on out-of-range indexing, AssertionError, TypeError
on a call with a wrong number of arguments) is modelled with Option: none is
a raised exception.
-/

set_option maxRecDepth 40000

abbrev Str := List Char

def str (s : String) : Str := s.data

/-- ASCII lower-casing of one character (model of Python case folding for
the ASCII range, which is all that the fixed patterns of the program use). -/
def lowerChar (c : Char) : Char :=
  match c with
  | 'A' => 'a' | 'B' => 'b' | 'C' => 'c' | 'D' => 'd' | 'E' => 'e'
  | 'F' => 'f' | 'G' => 'g' | 'H' => 'h' | 'I' => 'i' | 'J' => 'j'
  | 'K' => 'k' | 'L' => 'l' | 'M' => 'm' | 'N' => 'n' | 'O' => 'o'
  | 'P' => 'p' | 'Q' => 'q' | 'R' => 'r' | 'S' => 's' | 'T' => 't'
  | 'U' => 'u' | 'V' => 'v' | 'W' => 'w' | 'X' => 'x' | 'Y' => 'y'
  | 'Z' => 'z'
  | c => c

/-- ASCII upper-casing of one character (model of Python str.upper for the
ASCII range, as used by sentence on the first character of a title). -/
def upperChar (c : Char) : Char :=
  match c with
  | 'a' => 'A' | 'b' => 'B' | 'c' => 'C' | 'd' => 'D' | 'e' => 'E'
  | 'f' => 'F' | 'g' => 'G' | 'h' => 'H' | 'i' => 'I' | 'j' => 'J'
  | 'k' => 'K' | 'l' => 'L' | 'm' => 'M' | 'n' => 'N' | 'o' => 'O'
  | 'p' => 'P' | 'q' => 'Q' | 'r' => 'R' | 's' => 'S' | 't' => 'T'
  | 'u' => 'U' | 'v' => 'V' | 'w' => 'W' | 'x' => 'X' | 'y' => 'Y'
  | 'z' => 'Z'
  | c => c

def strLower (s : Str) : Str := s.map lowerChar

/-- re.search of a plain literal pattern: the pattern occurs somewhere in s. -/
def containsSeq (p : Str) : Str → Bool
  | [] => p.isEmpty
  | c :: cs => p.isPrefixOf (c :: cs) || containsSeq p cs

/-- re.search of a pattern of the shape \s‹p›: a whitespace character
immediately followed by the literal p, somewhere in s. -/
def wsImm (p : Str) : Str → Bool
  | [] => false
  | c :: cs => (c.isWhitespace && p.isPrefixOf cs) || wsImm p cs

/-- Scanner for patterns of the shape \s.*‹p› (re.search): a whitespace
character, then any characters none of which is a newline, then the literal
p.  The flag records whether some earlier whitespace character is separated
from the current position only by non-newline characters. -/
def wsThenAux (p : Str) : Bool → Str → Bool
  | _, [] => false
  | flag, c :: cs =>
      (flag && p.isPrefixOf (c :: cs))
        || wsThenAux p (c.isWhitespace || (flag && !(c == '\n'))) cs

def wsThen (p s : Str) : Bool := wsThenAux p false s

/-- Does f hold of some suffix of s (re.search of a pattern matched at a
single starting position by f)? -/
def existsSuffix (f : Str → Bool) : Str → Bool
  | [] => f []
  | c :: cs => f (c :: cs) || existsSuffix f cs

/-- Scanner for patterns of the shape ` *calculator`: zero or more literal
space characters, then the literal p. -/
def spacesThen (p : Str) : Str → Bool
  | [] => p.isPrefixOf []
  | c :: cs => p.isPrefixOf (c :: cs) || (c == ' ' && spacesThen p cs)

/-- One starting position of the second branch of RE_OPTIONS, on an already
lower-cased string: `Option (in)?to *Calculator` , i.e. "option " then
"into" or "to", then spaces, then "calculator". -/
def optionToCalcAt (s : Str) : Bool :=
  (str "option ").isPrefixOf s &&
    (let r := s.drop 7
     ((str "into").isPrefixOf r && spacesThen (str "calculator") (r.drop 4))
       || ((str "to").isPrefixOf r && spacesThen (str "calculator") (r.drop 2)))

/-- RE_OPTIONS = (\s.*Options[\s,!\?\._-]?)|(.*Option (in)?to *Calculator[\s,!\?\._-]?),
re.IGNORECASE, used with re.search.  The trailing optional character classes
do not constrain existence of a match. -/
def reOptions (s : Str) : Bool :=
  wsThen (str "options") (strLower s) || existsSuffix optionToCalcAt (strLower s)

/-- RE_CALCULATOR = \s.*Calculator[\s,!\?\._-]? — note: compiled WITHOUT
re.IGNORECASE, so the match is case sensitive. -/
def reCalculator (s : Str) : Bool := wsThen (str "Calculator") s

/-- RE_SUPPORT_FOR = support( for)?, re.IGNORECASE: reduces to containing
"support" somewhere. -/
def reSupportFor (s : Str) : Bool := containsSeq (str "support") (strLower s)

/-- RE_ANDROID_CHANGES = (\saar[\s,!\?\._-]?)|(java[\s,!\?\._-]?)|(android), re.IGNORECASE. -/
def reAndroid (s : Str) : Bool :=
  wsImm (str "aar") (strLower s) || containsSeq (str "java") (strLower s)
    || containsSeq (str "android") (strLower s)

/-- RE_JS_CHANGES = \s(java-?script)|(js)[\s,!\?\._-]?, re.IGNORECASE.  The
alternation splits as (\s(java-?script)) | ((js)[\s,!\?\._-]?). -/
def reJs (s : Str) : Bool :=
  wsImm (str "javascript") (strLower s) || wsImm (str "java-script") (strLower s)
    || containsSeq (str "js") (strLower s)

/-- RE_PYTHON_CHANGES = \spython[\s,!\?\._-]?, re.IGNORECASE. -/
def rePython (s : Str) : Bool := wsImm (str "python") (strLower s)

/-- RE_BUG_FIX = \sfix(ed)?, re.IGNORECASE: a whitespace character
immediately followed by "fix". -/
def reBugFix (s : Str) : Bool := wsImm (str "fix") (strLower s)

/-- RE_DEPS = dependenc(ies|y)[\s,!\?\._-]?, re.IGNORECASE. -/
def reDeps (s : Str) : Bool :=
  containsSeq (str "dependencies") (strLower s)
    || containsSeq (str "dependency") (strLower s)

/-- RE_IOS = \sios[\s,!\?\._-]?, re.IGNORECASE. -/
def reIos (s : Str) : Bool := wsImm (str "ios") (strLower s)

/-- RE_BAZEL = bazel, re.IGNORECASE. -/
def reBazel (s : Str) : Bool := containsSeq (str "bazel") (strLower s)


/-- Python str.strip with a fixed character class: remove matching characters
from BOTH ends (this is what text.strip() and text.strip(".") do). -/
def stripChars (p : Char → Bool) (s : Str) : Str :=
  ((s.dropWhile p).reverse.dropWhile p).reverse

/-- sentence(text): text.strip().strip(".") and then text[0].upper() + text[1:].
When the stripped text is empty, text[0] raises IndexError (modelled none). -/
def sentence (text : Str) : Option Str :=
  match stripChars (fun c => c == '.') (stripChars Char.isWhitespace text) with
  | [] => none
  | c :: cs => some (upperChar c :: cs)

/-- Python str.replace(old, new): scan left to right, replace non-overlapping
occurrences, never rescanning the produced text.  Fuel-based structural
recursion (fuel = length of the subject suffices, each step consumes at least
one character when the pattern is non-empty). -/
def replaceAllFuel (pat rep : Str) : Nat → Str → Str
  | 0, s => s
  | _ + 1, [] => []
  | n + 1, c :: cs =>
      if !pat.isEmpty && pat.isPrefixOf (c :: cs) then
        rep ++ replaceAllFuel pat rep n ((c :: cs).drop pat.length)
      else
        c :: replaceAllFuel pat rep n cs

def replaceAll (pat rep s : Str) : Str := replaceAllFuel pat rep s.length s

/-- re.sub(r"Add(ed)?", "", op, re.I): because re.I (= 2) is passed as the
positional COUNT argument, this replaces at most the first two CASE SENSITIVE
occurrences of "Added"/"Add" (the greedy (ed)? prefers "Added"). -/
def subAddAux : Nat → Str → Str
  | _, [] => []
  | 0, s => s
  | n + 1, 'A' :: 'd' :: 'd' :: 'e' :: 'd' :: rest2 => subAddAux n rest2
  | n + 1, 'A' :: 'd' :: 'd' :: rest2 => subAddAux n rest2
  | n + 1, c :: cs => c :: subAddAux (n + 1) cs

def stripAddTwo (s : Str) : Str := subAddAux 2 s

/-- check_fine_grained_framework_items: any of RE_OPTIONS, RE_CALCULATOR,
RE_SUPPORT_FOR matches (in that order). -/
def check_fine_grained_framework_items (message : Str) : Bool :=
  reOptions message || reCalculator message || reSupportFor message

/-- The tuple of accumulator lists of process_notes (Python keeps them as
separate local lists passed by reference to the helper functions). -/
structure St where
  android_changes : List Str := []
  ios_changes : List Str := []
  js_changes : List Str := []
  python_changes : List Str := []
  framework_items : List Str := []
  build_changes : List Str := []
  added_calculators : List Str := []
  added_support : List Str := []
  added_options : List Str := []
  bazel_changes : List Str := []
  bug_fixes : List Str := []
  deps : List Str := []
  deriving DecidableEq, Repr

def addBazel (st : St) (m : Str) : St := { st with bazel_changes := st.bazel_changes ++ [m] }
def addAndroid (st : St) (m : Str) : St := { st with android_changes := st.android_changes ++ [m] }
def addJs (st : St) (m : Str) : St := { st with js_changes := st.js_changes ++ [m] }
def addPython (st : St) (m : Str) : St := { st with python_changes := st.python_changes ++ [m] }
def addBugFix (st : St) (m : Str) : St := { st with bug_fixes := st.bug_fixes ++ [m] }
def addDeps (st : St) (m : Str) : St := { st with deps := st.deps ++ [m] }
def addIos (st : St) (m : Str) : St := { st with ios_changes := st.ios_changes ++ [m] }

/-- First if block of parse_framework_changes (RE_OPTIONS test): on a match,
line is reassigned to sentence(line) and appended to added_options. -/
def pfcOptionsStep (line : Str) (st : St) : Option (Str × St) :=
  if reOptions line then
    match sentence line with
    | none => none
    | some l => some (l, { st with added_options := st.added_options ++ [l] })
  else some (line, st)

/-- Second if block of parse_framework_changes (RE_CALCULATOR test). -/
def pfcCalcStep (line : Str) (st : St) : Option (Str × St) :=
  if reCalculator line then
    match sentence line with
    | none => none
    | some l => some (l, { st with added_calculators := st.added_calculators ++ [l] })
  else some (line, st)

/-- Third if block of parse_framework_changes: the else branch belongs only
to the RE_SUPPORT_FOR test. -/
def pfcSupportStep (line : Str) (st : St) : Option St :=
  if reSupportFor line then
    match sentence line with
    | none => none
    | some l => some { st with added_support := st.added_support ++ [l] }
  else
    match sentence line with
    | none => none
    | some l => some { st with framework_items := st.framework_items ++ [l] }

/-- parse_framework_changes: the three if blocks in sequence, each test
seeing the line value possibly reassigned by the previous block.  The unused
regex parameter of the Python function is dropped (it is only read by
commented-out code). -/
def parse_framework_changes (line : Str) (st : St) : Option St :=
  match pfcOptionsStep line st with
  | none => none
  | some (line, st) =>
    match pfcCalcStep line st with
    | none => none
    | some (line, st) => pfcSupportStep line st

/-- added_to_section_notes: divert framework-signal titles to
parse_framework_changes and report False; otherwise append the sentence-cased
message to the given collection and report True. -/
def added_to_section_notes (message : Str) (st : St) (add : St → Str → St) :
    Option (Bool × St) :=
  if check_fine_grained_framework_items message then
    match parse_framework_changes message st with
    | none => none
    | some st => some (false, st)
  else
    match sentence message with
    | none => none
    | some m => some (true, add st m)

/-- additions_or_updates: not added_to_section_notes(...) and not
added_to_section_notes(...), with Python short-circuit evaluation: the second
call happens only when the first one returned False. -/
def additions_or_updates (line : Str) (st : St) (add : St → Str → St) :
    Option (Bool × St) :=
  match added_to_section_notes line st add with
  | none => none
  | some (a1, st) =>
      if a1 then some (false, st)
      else
        match added_to_section_notes line st add with
        | none => none
        | some (a2, st) => some (!a2, st)

/-- One `if re.search(...): if additions_or_updates(...): continue` block of
the loop of process_notes: when the category pattern does not match, nothing
happens and the loop goes on (stop = false). -/
def categoryStep (cond : Bool) (line : Str) (st : St) (add : St → Str → St) :
    Option (Bool × St) :=
  if cond then additions_or_updates line st add else some (false, st)

/-- The iOS block of the loop of process_notes.  A framework-signal iOS title
reaches a call of parse_framework_changes with five arguments for six
parameters, a TypeError (modelled none).  Otherwise the title (sentence-cased
unless it already starts with iOS/ios, and with "ios" replaced by "iOS") is
appended to ios_changes, the loop variable line keeps the sentence-cased
value, and there is no continue. -/
def iosStep (line : Str) (st : St) : Option (Str × St) :=
  if reIos line then
    if check_fine_grained_framework_items line then none
    else if (str "iOS").isPrefixOf line || (str "ios").isPrefixOf line then
      some (line, addIos st (replaceAll (str "ios") (str "iOS") line))
    else
      match sentence line with
      | none => none
      | some l => some (l, addIos st (replaceAll (str "ios") (str "iOS") l))
  else some (line, st)

/-- One iteration of the for-loop of process_notes.  `continue` is modelled
by returning the state early (stop = true); note that a category block sets
stop only when additions_or_updates reports the framework diversion, so a
title appended to a category bucket falls through to the later checks. -/
def process_line (line : Str) (st : St) : Option St :=
  -- check for Bazel changes
  match categoryStep (reBazel line) line st addBazel with
  | none => none
  | some (stop, st) =>
  if stop then some st else
  -- check for iOS changes
  match iosStep line st with
  | none => none
  | some (line, st) =>
  -- check for android changes
  match categoryStep (reAndroid line && !reJs line) line st addAndroid with
  | none => none
  | some (stop, st) =>
  if stop then some st else
  -- check for javascript changes
  match categoryStep (!reAndroid line && reJs line) line st addJs with
  | none => none
  | some (stop, st) =>
  if stop then some st else
  -- check for python changes
  match categoryStep (rePython line) line st addPython with
  | none => none
  | some (stop, st) =>
  if stop then some st else
  -- check for bug fixes
  match categoryStep (reBugFix line) line st addBugFix with
  | none => none
  | some (stop, st) =>
  if stop then some st else
  -- check for dependency changes
  match categoryStep (reDeps line) line st addDeps with
  | none => none
  | some (stop, st) =>
  if stop then some st else
  -- check for new additions: re.match(r"Add(ed)?", line, re.IGNORECASE)
  if (str "add").isPrefixOf (strLower line) then parse_framework_changes line st
  -- check for new updates: re.match(r"Updated?", line, re.IGNORECASE)
  else if (str "update").isPrefixOf (strLower line) then parse_framework_changes line st
  else some st

def process_notes_core (notes : List Str) : Option St :=
  notes.foldlM (fun st line => process_line line st) {}

/-- The tuple returned by process_notes, in the order of the return statement:
(android, ios, python, js, bazel, build, deps, bug_fixes, framework). -/
structure Result where
  android : List Str
  ios : List Str
  python : List Str
  js : List Str
  bazel : List Str
  build : List Str
  depsList : List Str
  bugFixes : List Str
  framework : List Str
  deriving DecidableEq, Repr

/-- process_notes: run the loop, then assemble framework_changes as two
synthetic "Added ..." lines followed by the generic framework items and the
support entries. -/
def process_notes (notes : List Str) : Option Result :=
  match process_notes_core notes with
  | none => none
  | some st =>
    some { android := st.android_changes
           ios := st.ios_changes
           python := st.python_changes
           js := st.js_changes
           bazel := st.bazel_changes
           build := st.build_changes
           depsList := st.deps
           bugFixes := st.bug_fixes
           framework :=
             [ str "Added " ++ List.intercalate (str ", ") (st.added_options.map stripAddTwo)
             , str "Added " ++ List.intercalate (str ", ") (st.added_calculators.map stripAddTwo) ]
               ++ st.framework_items ++ st.added_support }


/-- "\n".join(["- " + item for item in bucket]) -/
def joinBucket (bucket : List Str) : Str :=
  List.intercalate (str "\n") (bucket.map (fun item => str "- " ++ item))

/-- notes_from_template: join each bucket into a bullet list, substitute into
the fixed f-string template, then textually delete the heading lines of the
empty sections — only for Build, Bazel, Framework, Android (tested twice),
iOS, Bug fixes and MediaPipe Dependencies; there is no deletion for the
Javascript and Python headings.  Parameter order follows the Python def. -/
def notes_from_template (bazel_changes android_changes ios_changes js_changes
    python_changes bug_fixes framework_changes build_changes deps_changes :
    List Str) : Str :=
  let android_s := joinBucket android_changes
  let ios_s := joinBucket ios_changes
  let bazel_s := joinBucket bazel_changes
  let bug_fixes_s := joinBucket bug_fixes
  let framework_s := joinBucket framework_changes
  let build_s := joinBucket build_changes
  let deps_s := joinBucket deps_changes
  let python_s := joinBucket python_changes
  let js_s := joinBucket js_changes
  let x := str "\n### Build changes\n" ++ build_s
    ++ str "\n    \n### Bazel changes\n" ++ bazel_s
    ++ str "\n\n### Framework and core calculator improvements\n" ++ framework_s
    ++ str "\n\n### MediaPipe solutions update\nThis section should highlight the changes that are done specifically for any platform and don\x27t propagate to\nother platforms.\n\n#### Android\n" ++ android_s
    ++ str "\n\n#### iOS\n" ++ ios_s
    ++ str "\n\n#### Javascript\n" ++ js_s
    ++ str "\n\n#### Python\n" ++ python_s
    ++ str "\n\n### Bug fixes\n" ++ bug_fixes_s
    ++ str "\n\n### MediaPipe Dependencies\n" ++ deps_s
    ++ str "\n  "
  let x := if build_s.length = 0 then replaceAll (str "### Build changes\n") [] x else x
  let x := if bazel_s.length = 0 then replaceAll (str "### Bazel changes\n") [] x else x
  let x := if framework_s.length = 0 then replaceAll (str "### Framework and core calculator improvements\n") [] x else x
  let x := if android_s.length = 0 then replaceAll (str "#### Android\n") [] x else x
  let x := if ios_s.length = 0 then replaceAll (str "#### iOS\n") [] x else x
  let x := if bug_fixes_s.length = 0 then replaceAll (str "### Bug fixes\n") [] x else x
  let x := if android_s.length = 0 then replaceAll (str "#### Android\n") [] x else x
  let x := if deps_s.length = 0 then replaceAll (str "### MediaPipe Dependencies\n") [] x else x
  x

/-- Rendering of the process_notes result, with the keyword-argument wiring of
the __main__ block (notes_from_template(bazel_changes=bazel_changes, ...)). -/
def renderResult (r : Result) : Str :=
  notes_from_template r.bazel r.android r.ios r.js r.python r.bugFixes
    r.framework r.build r.depsList

/- ---------- the Commit class ---------- -/

/-- parse_commit_title: self.message = self.commit_lines[3].strip(); indexing
an out-of-range position raises IndexError (modelled none). -/
def parse_commit_title (commit_lines : List Str) : Option Str :=
  (commit_lines.get? 3).map (stripChars Char.isWhitespace)

/-- The character class [a-zA-Z\-] of RE_GIT_COMMIT_AUTHOR. -/
def nameChar (c : Char) : Bool :=
  ('a' ≤ c && c ≤ 'z') || ('A' ≤ c && c ≤ 'Z') || c == '-'

/-- After a "<": a non-empty greedy run of name characters followed by "@"
(backtracking cannot shorten the run because "@" is not a name character). -/
def angleName (s : Str) : Option Str :=
  let name := s.takeWhile nameChar
  if name.length > 0 && (s.drop name.length).headD ' ' == '@' then some name
  else none

/-- The greedy leading .* of RE_GIT_COMMIT_AUTHOR selects the rightmost "<"
from which the rest of the pattern still matches. -/
def lastAngleName : Str → Option Str
  | [] => none
  | '<' :: cs => (lastAngleName cs).orElse (fun _ => angleName cs)
  | _ :: cs => lastAngleName cs

/-- RE_GIT_COMMIT_AUTHOR = ^Author:.*<([a-zA-Z\-]+)@.*>$ , used with .match
on newline-free lines: "Author:" prefix, final character ">", and a
<name@...> group chosen by the greedy .* . -/
def authorOfLine (l : Str) : Option Str :=
  if (str "Author:").isPrefixOf l && l.getLast? == some '>' then lastAngleName l
  else none

/-- parse_author: first line matching RE_GIT_COMMIT_AUTHOR sets the author;
with no match the author stays "". -/
def parse_author : List Str → Str
  | [] => []
  | l :: ls =>
      match authorOfLine l with
      | some a => a
      | none => parse_author ls

structure CommitRec where
  message : Str
  author : Str
  deriving DecidableEq, Repr

/-- Commit.__init__ after get_commit_details: on a subprocess failure the
CalledProcessError is printed and commit_lines keeps its initial value [];
construction then continues with parse_commit_title (which indexes line 3)
followed by parse_author.  fetched = none models the failed git show. -/
def mkCommit (fetched : Option (List Str)) : Option CommitRec :=
  let commit_lines := fetched.getD []
  match parse_commit_title commit_lines with
  | none => none
  | some message => some { message, author := parse_author commit_lines }

/-- RE_INTERNAL_CHANGES tested with re.match and .* not crossing newlines:
the literal p occurring after a newline-free prefix. -/
def dotStarContains (p : Str) : Str → Bool
  | [] => p.isEmpty
  | c :: cs => p.isPrefixOf (c :: cs) || (!(c == '\n') && dotStarContains p cs)

/-- Scanner for `.*\s?‹p›` from the current position: a newline-free run,
then an optional single whitespace character, then the literal p. -/
def dotStarWsOptThen (p : Str) : Str → Bool
  | [] => p.isEmpty
  | c :: cs =>
      p.isPrefixOf (c :: cs) || (c.isWhitespace && p.isPrefixOf cs)
        || (!(c == '\n') && dotStarWsOptThen p cs)

/-- RE_GIT_MERGE = ^Merged.* — compiled WITHOUT re.IGNORECASE and used with
re.match: a case sensitive "Merged" prefix. -/
def reGitMerge (s : Str) : Bool := (str "Merged").isPrefixOf s

/-- RE_INTERNAL_CHANGES = (Code Format(ted|ting)?)|(Updated? Format(ting)?)|formatting|.*\.yaml|.*\.md
with re.IGNORECASE, used with re.match (anchored at the start; the branches
with a leading .* are satisfied by any occurrence after a newline-free
prefix). -/
def reInternalChanges (s : Str) : Bool :=
  let t := strLower s
  (str "code format").isPrefixOf t
    || (str "update format").isPrefixOf t || (str "updated format").isPrefixOf t
    || (str "formatting").isPrefixOf t
    || dotStarContains (str ".yaml") t || dotStarContains (str ".md") t

/-- re.match(r"^Internal\s?.*\s?change", message, re.IGNORECASE): "internal"
prefix, then optional whitespace, a newline-free run, optional whitespace,
then "change". -/
def reInternalChange (s : Str) : Bool :=
  let t := strLower s
  (str "internal").isPrefixOf t &&
    (let r := t.drop 8
     dotStarWsOptThen (str "change") r
       || (match r with
           | c :: cs => c.isWhitespace && dotStarWsOptThen (str "change") cs
           | [] => false))

/-- Commit.valid_release_note: assert len(self.message) > 0 raises
AssertionError on an empty title (modelled none); then the three anchored
pattern tests. -/
def valid_release_note (message : Str) : Option Bool :=
  if message.length = 0 then none
  else some
    (if reGitMerge message then false
     else if reInternalChanges message then false
     else if reInternalChange message then false
     else true)


/- ---------- general helper lemmas ---------- -/

theorem isPrefixOf_append_self (p t : Str) : p.isPrefixOf (p ++ t) = true := by
  rw [List.isPrefixOf_iff_prefix]
  exact List.prefix_append p t

theorem beq_append_singleton_right (xs : List Str) (a : Str) :
    (xs == xs ++ [a]) = false := by
  rw [beq_eq_false_iff_ne]
  intro h
  simpa using congrArg List.length h

theorem beq_append_singleton_left (xs : List Str) (a : Str) :
    ((xs ++ [a] : List Str) == xs) = false := by
  rw [beq_eq_false_iff_ne]
  intro h
  simpa using congrArg List.length h

/-- Characterization of the \s‹p› scanner: some whitespace character is
immediately followed by the pattern. -/
theorem wsImm_iff (p t : Str) :
    wsImm p t = true ↔
      ∃ (a : Str) (w : Char) (b : Str),
        t = a ++ w :: (p ++ b) ∧ w.isWhitespace = true := by
  induction t with
  | nil =>
      constructor
      · intro h
        simp [wsImm] at h
      · rintro ⟨a, w, b, h, -⟩
        cases a <;> simp at h
  | cons c cs ih =>
      simp only [wsImm, Bool.or_eq_true, Bool.and_eq_true, ih]
      constructor
      · rintro (⟨hw, hp⟩ | ⟨a, w, b, rfl, hw⟩)
        · rw [List.isPrefixOf_iff_prefix] at hp
          obtain ⟨b, rfl⟩ := hp
          exact ⟨[], c, b, rfl, hw⟩
        · exact ⟨c :: a, w, b, rfl, hw⟩
      · rintro ⟨a, w, b, h, hw⟩
        cases a with
        | nil =>
            simp only [List.nil_append, List.cons.injEq] at h
            obtain ⟨rfl, rfl⟩ := h
            left
            refine ⟨hw, ?_⟩
            exact isPrefixOf_append_self p b
        | cons a0 as =>
            simp only [List.cons_append, List.cons.injEq] at h
            obtain ⟨rfl, rfl⟩ := h
            right
            exact ⟨as, w, b, rfl, hw⟩

theorem upperChar_cases (c : Char) :
    upperChar c = c ∨ upperChar c ∈
      ([ 'A', 'B', 'C', 'D', 'E', 'F', 'G', 'H', 'I', 'J', 'K', 'L', 'M',
         'N', 'O', 'P', 'Q', 'R', 'S', 'T', 'U', 'V', 'W', 'X', 'Y', 'Z'] : List Char) := by
  unfold upperChar
  split <;> first | (left ; rfl) | decide

theorem upperChar_idem (c : Char) : upperChar (upperChar c) = upperChar c := by
  rcases upperChar_cases c with h | h
  · simp only [h]
  · have hfix : ∀ d ∈ ([ 'A', 'B', 'C', 'D', 'E', 'F', 'G', 'H', 'I', 'J',
        'K', 'L', 'M', 'N', 'O', 'P', 'Q', 'R', 'S', 'T', 'U', 'V', 'W',
        'X', 'Y', 'Z'] : List Char), upperChar d = d := by decide
    rw [hfix _ h]

theorem upperChar_beq_dot (c : Char) (h : (c == '.') = false) :
    (upperChar c == '.') = false := by
  rcases upperChar_cases c with h1 | h1
  · rw [h1]
    exact h
  · have hdot : ∀ d ∈ ([ 'A', 'B', 'C', 'D', 'E', 'F', 'G', 'H', 'I', 'J',
        'K', 'L', 'M', 'N', 'O', 'P', 'Q', 'R', 'S', 'T', 'U', 'V', 'W',
        'X', 'Y', 'Z'] : List Char), (d == '.') = false := by decide
    exact hdot _ h1

theorem dropWhile_head_not (p : Char → Bool) (l : Str) (c : Char) (cs : Str)
    (h : l.dropWhile p = c :: cs) : p c = false := by
  induction l with
  | nil => simp at h
  | cons a as ih =>
      rw [List.dropWhile_cons] at h
      by_cases hp : p a = true
      · exact ih (by simpa [hp] using h)
      · rw [if_neg (by simp [hp])] at h
        cases h
        simpa using hp

theorem dropWhile_getLast? (p : Char → Bool) (l : Str)
    (h : l.dropWhile p ≠ []) : (l.dropWhile p).getLast? = l.getLast? := by
  induction l with
  | nil => simp at h
  | cons a as ih =>
      rw [List.dropWhile_cons]
      by_cases hp : p a = true
      · rw [List.dropWhile_cons, if_pos (by simp [hp])] at h
        rw [if_pos (by simp [hp]), ih h]
        have has : as ≠ [] := by
          intro he
          exact h (by simp [he])
        cases as with
        | nil => exact absurd rfl has
        | cons b bs => simp [List.getLast?_cons]
      · rw [if_neg (by simp [hp])]

/-- The first character of a stripChars result never satisfies p. -/
theorem stripChars_head_not (p : Char → Bool) (s : Str) (c : Char) (cs : Str)
    (h : stripChars p s = c :: cs) : p c = false := by
  unfold stripChars at h
  have hw : (s.dropWhile p).reverse.dropWhile p ≠ [] := by
    intro he
    rw [he] at h
    simp at h
  have h1 : ((s.dropWhile p).reverse.dropWhile p).getLast?
      = (s.dropWhile p).reverse.getLast? :=
    dropWhile_getLast? p (s.dropWhile p).reverse hw
  have h2 : ((s.dropWhile p).reverse.dropWhile p).reverse.head?
      = ((s.dropWhile p).reverse.dropWhile p).getLast? :=
    List.head?_reverse _
  rw [h, h1] at h2
  rw [show (s.dropWhile p).reverse.getLast? = (s.dropWhile p).head? by
        rw [← List.head?_reverse, List.reverse_reverse]] at h2
  cases hu2 : s.dropWhile p with
  | nil => rw [hu2] at h2; simp at h2
  | cons d ds =>
      rw [hu2] at h2
      simp only [List.head?_cons, Option.some.injEq] at h2
      rw [h2]
      exact dropWhile_head_not p s d ds hu2

/-- The last character of a stripChars result never satisfies p. -/
theorem stripChars_getLast_not (p : Char → Bool) (s : Str) (c : Char)
    (h : (stripChars p s).getLast? = some c) : p c = false := by
  unfold stripChars at h
  rw [← List.head?_reverse, List.reverse_reverse] at h
  cases hw : (s.dropWhile p).reverse.dropWhile p with
  | nil => rw [hw] at h; simp at h
  | cons d ds =>
      rw [hw] at h
      simp only [List.head?_cons, Option.some.injEq] at h
      rw [← h]
      exact dropWhile_head_not p _ d ds hw

/-- stripChars is the identity when neither end satisfies p. -/
theorem stripChars_eq_self (p : Char → Bool) (s : Str)
    (hh : ∀ c, s.head? = some c → p c = false)
    (hl : ∀ c, s.getLast? = some c → p c = false) : stripChars p s = s := by
  have h1 : s.dropWhile p = s := by
    cases hs : s with
    | nil => simp
    | cons a as =>
        rw [List.dropWhile_cons, if_neg]
        simp [hh a (by rw [hs]; rfl)]
  unfold stripChars
  rw [h1]
  have h2 : s.reverse.dropWhile p = s.reverse := by
    cases hs : s.reverse with
    | nil => simp [hs]
    | cons a as =>
        rw [List.dropWhile_cons, if_neg]
        have : s.getLast? = some a := by
          rw [← List.head?_reverse, hs]
          rfl
        simp [hl a this]
  rw [h2, List.reverse_reverse]

/-- stripChars gives the empty string exactly when every character of the
input satisfies p. -/
theorem stripChars_eq_nil_iff (p : Char → Bool) (s : Str) :
    stripChars p s = [] ↔ ∀ c ∈ s, p c = true := by
  unfold stripChars
  rw [List.reverse_eq_nil_iff, List.dropWhile_eq_nil_iff]
  constructor
  · intro h c hc
    by_cases hmem : c ∈ s.dropWhile p
    · exact h c (by simpa using hmem)
    · have hsplit : s.takeWhile p ++ s.dropWhile p = s :=
        List.takeWhile_append_dropWhile p s
      rw [← hsplit] at hc
      rcases List.mem_append.mp hc with h1 | h1
      · exact List.mem_takeWhile_imp h1
      · exact absurd h1 hmem
  · intro h c hc
    refine h c ?_
    have := List.dropWhile_sublist (l := s) p
    exact this.mem (by simpa using hc)


/-- Agreement of two classifier states on all top-level category buckets. -/
def sameBuckets (a b : St) : Prop :=
  a.android_changes = b.android_changes ∧ a.ios_changes = b.ios_changes
    ∧ a.js_changes = b.js_changes ∧ a.python_changes = b.python_changes
    ∧ a.build_changes = b.build_changes ∧ a.bazel_changes = b.bazel_changes
    ∧ a.bug_fixes = b.bug_fixes ∧ a.deps = b.deps

theorem sameBuckets_refl (a : St) : sameBuckets a a :=
  ⟨rfl, rfl, rfl, rfl, rfl, rfl, rfl, rfl⟩

theorem sameBuckets_trans {a b c : St} (h1 : sameBuckets a b)
    (h2 : sameBuckets b c) : sameBuckets a c := by
  obtain ⟨a1, a2, a3, a4, a5, a6, a7, a8⟩ := h1
  obtain ⟨b1, b2, b3, b4, b5, b6, b7, b8⟩ := h2
  exact ⟨a1.trans b1, a2.trans b2, a3.trans b3, a4.trans b4, a5.trans b5,
         a6.trans b6, a7.trans b7, a8.trans b8⟩

theorem pfcOptionsStep_same (line : Str) (st : St) (l1 : Str) (st1 : St)
    (h : pfcOptionsStep line st = some (l1, st1)) :
    sameBuckets st1 st ∧ st1.added_support = st.added_support
      ∧ st1.framework_items = st.framework_items := by
  unfold pfcOptionsStep at h
  split at h
  · split at h
    · exact absurd h (by simp)
    · simp only [Option.some.injEq, Prod.mk.injEq] at h
      obtain ⟨-, rfl⟩ := h
      exact ⟨sameBuckets_refl _, rfl, rfl⟩
  · simp only [Option.some.injEq, Prod.mk.injEq] at h
    obtain ⟨-, rfl⟩ := h
    exact ⟨sameBuckets_refl _, rfl, rfl⟩

theorem pfcCalcStep_same (line : Str) (st : St) (l1 : Str) (st1 : St)
    (h : pfcCalcStep line st = some (l1, st1)) :
    sameBuckets st1 st ∧ st1.added_support = st.added_support
      ∧ st1.framework_items = st.framework_items := by
  unfold pfcCalcStep at h
  split at h
  · split at h
    · exact absurd h (by simp)
    · simp only [Option.some.injEq, Prod.mk.injEq] at h
      obtain ⟨-, rfl⟩ := h
      exact ⟨sameBuckets_refl _, rfl, rfl⟩
  · simp only [Option.some.injEq, Prod.mk.injEq] at h
    obtain ⟨-, rfl⟩ := h
    exact ⟨sameBuckets_refl _, rfl, rfl⟩

theorem pfcSupportStep_effect (line : Str) (st st2 : St)
    (h : pfcSupportStep line st = some st2) :
    sameBuckets st2 st
    ∧ ((st2.added_support = st.added_support
          ∧ st2.framework_items.length = st.framework_items.length + 1)
        ∨ (st2.framework_items = st.framework_items
          ∧ st2.added_support.length = st.added_support.length + 1)) := by
  unfold pfcSupportStep at h
  split at h
  · split at h
    · exact absurd h (by simp)
    · simp only [Option.some.injEq] at h
      subst h
      exact ⟨⟨rfl, rfl, rfl, rfl, rfl, rfl, rfl, rfl⟩, Or.inr ⟨rfl, by simp⟩⟩
  · split at h
    · exact absurd h (by simp)
    · simp only [Option.some.injEq] at h
      subst h
      exact ⟨⟨rfl, rfl, rfl, rfl, rfl, rfl, rfl, rfl⟩, Or.inl ⟨rfl, by simp⟩⟩

/-- Effect of parse_framework_changes on the state: all top-level category
buckets are untouched, and exactly one of the support sub-bucket and the
generic framework-items sub-bucket grows by one entry (the else branch
belongs only to the support test). -/
theorem parse_framework_changes_effect (line : Str) (st st2 : St)
    (h : parse_framework_changes line st = some st2) :
    sameBuckets st2 st
    ∧ ((st2.added_support = st.added_support
          ∧ st2.framework_items.length = st.framework_items.length + 1)
        ∨ (st2.framework_items = st.framework_items
          ∧ st2.added_support.length = st.added_support.length + 1)) := by
  unfold parse_framework_changes at h
  cases h1 : pfcOptionsStep line st with
  | none => rw [h1] at h; exact absurd h (by simp)
  | some p1 =>
      obtain ⟨l1, st1⟩ := p1
      rw [h1] at h
      simp only at h
      cases h2 : pfcCalcStep l1 st1 with
      | none => rw [h2] at h; exact absurd h (by simp)
      | some p2 =>
          obtain ⟨l2, stB⟩ := p2
          rw [h2] at h
          simp only at h
          obtain ⟨s1, su1, fw1⟩ := pfcOptionsStep_same _ _ _ _ h1
          obtain ⟨s2, su2, fw2⟩ := pfcCalcStep_same _ _ _ _ h2
          obtain ⟨s3, hxor⟩ := pfcSupportStep_effect _ _ _ h
          refine ⟨sameBuckets_trans (sameBuckets_trans s3 s2) s1, ?_⟩
          rcases hxor with ⟨ha, hb⟩ | ⟨ha, hb⟩
          · left
            exact ⟨ha.trans (su2.trans su1), by rw [hb, fw2, fw1]⟩
          · right
            exact ⟨ha.trans (fw2.trans fw1), by rw [hb, su2, su1]⟩

theorem added_to_section_notes_build (message : Str) (st : St)
    (add : St → Str → St)
    (hadd : ∀ s m, (add s m).build_changes = s.build_changes) (b : Bool)
    (st2 : St) (h : added_to_section_notes message st add = some (b, st2)) :
    st2.build_changes = st.build_changes := by
  unfold added_to_section_notes at h
  split at h
  · cases hp : parse_framework_changes message st with
    | none => rw [hp] at h; exact absurd h (by simp)
    | some stq =>
        rw [hp] at h
        simp only [Option.some.injEq, Prod.mk.injEq] at h
        obtain ⟨-, rfl⟩ := h
        exact (parse_framework_changes_effect _ _ _ hp).1.2.2.2.2.1
  · cases hs : sentence message with
    | none => rw [hs] at h; exact absurd h (by simp)
    | some m =>
        rw [hs] at h
        simp only [Option.some.injEq, Prod.mk.injEq] at h
        obtain ⟨-, rfl⟩ := h
        exact hadd st m

theorem additions_or_updates_build (line : Str) (st : St) (add : St → Str → St)
    (hadd : ∀ s m, (add s m).build_changes = s.build_changes) (b : Bool)
    (st2 : St) (h : additions_or_updates line st add = some (b, st2)) :
    st2.build_changes = st.build_changes := by
  unfold additions_or_updates at h
  cases h1 : added_to_section_notes line st add with
  | none => rw [h1] at h; exact absurd h (by simp)
  | some p1 =>
      obtain ⟨a1, stA⟩ := p1
      rw [h1] at h
      simp only at h
      split at h
      · simp only [Option.some.injEq, Prod.mk.injEq] at h
        obtain ⟨-, rfl⟩ := h
        exact added_to_section_notes_build _ _ _ hadd _ _ h1
      · cases h2 : added_to_section_notes line stA add with
        | none => rw [h2] at h; exact absurd h (by simp)
        | some p2 =>
            obtain ⟨a2, stB⟩ := p2
            rw [h2] at h
            simp only [Option.some.injEq, Prod.mk.injEq] at h
            obtain ⟨-, rfl⟩ := h
            exact (added_to_section_notes_build _ _ _ hadd _ _ h2).trans
                  (added_to_section_notes_build _ _ _ hadd _ _ h1)

theorem categoryStep_build (cond : Bool) (line : Str) (st : St)
    (add : St → Str → St)
    (hadd : ∀ s m, (add s m).build_changes = s.build_changes) (b : Bool)
    (st2 : St) (h : categoryStep cond line st add = some (b, st2)) :
    st2.build_changes = st.build_changes := by
  unfold categoryStep at h
  split at h
  · exact additions_or_updates_build _ _ _ hadd _ _ h
  · simp only [Option.some.injEq, Prod.mk.injEq] at h
    obtain ⟨-, rfl⟩ := h
    rfl

theorem iosStep_build (line : Str) (st : St) (l2 : Str) (st2 : St)
    (h : iosStep line st = some (l2, st2)) :
    st2.build_changes = st.build_changes := by
  unfold iosStep at h
  split at h
  · split at h
    · exact absurd h (by simp)
    · split at h
      · simp only [Option.some.injEq, Prod.mk.injEq] at h
        obtain ⟨-, rfl⟩ := h
        rfl
      · cases hs : sentence line with
        | none => rw [hs] at h; exact absurd h (by simp)
        | some l =>
            rw [hs] at h
            simp only [Option.some.injEq, Prod.mk.injEq] at h
            obtain ⟨-, rfl⟩ := h
            rfl
  · simp only [Option.some.injEq, Prod.mk.injEq] at h
    obtain ⟨-, rfl⟩ := h
    rfl

theorem process_line_build (line : Str) (st : St) (st2 : St)
    (h : process_line line st = some st2) :
    st2.build_changes = st.build_changes := by
  unfold process_line at h
  cases h1 : categoryStep (reBazel line) line st addBazel with
  | none => rw [h1] at h; exact absurd h (by simp)
  | some p1 =>
  obtain ⟨stop1, st1⟩ := p1
  rw [h1] at h
  simp only at h
  have e1 : st1.build_changes = st.build_changes :=
    categoryStep_build _ _ _ addBazel (fun _ _ => rfl) _ _ h1
  split at h
  · simp only [Option.some.injEq] at h
    subst h
    exact e1
  cases h2 : iosStep line st1 with
  | none => rw [h2] at h; exact absurd h (by simp)
  | some p2 =>
  obtain ⟨line2, stI⟩ := p2
  rw [h2] at h
  simp only at h
  have e2 : stI.build_changes = st1.build_changes := iosStep_build _ _ _ _ h2
  cases h3 : categoryStep (reAndroid line2 && !reJs line2) line2 stI addAndroid with
  | none => rw [h3] at h; exact absurd h (by simp)
  | some p3 =>
  obtain ⟨stop3, st3⟩ := p3
  rw [h3] at h
  simp only at h
  have e3 : st3.build_changes = stI.build_changes :=
    categoryStep_build _ _ _ addAndroid (fun _ _ => rfl) _ _ h3
  split at h
  · simp only [Option.some.injEq] at h
    subst h
    exact e3.trans (e2.trans e1)
  cases h4 : categoryStep (!reAndroid line2 && reJs line2) line2 st3 addJs with
  | none => rw [h4] at h; exact absurd h (by simp)
  | some p4 =>
  obtain ⟨stop4, st4⟩ := p4
  rw [h4] at h
  simp only at h
  have e4 : st4.build_changes = st3.build_changes :=
    categoryStep_build _ _ _ addJs (fun _ _ => rfl) _ _ h4
  split at h
  · simp only [Option.some.injEq] at h
    subst h
    exact e4.trans (e3.trans (e2.trans e1))
  cases h5 : categoryStep (rePython line2) line2 st4 addPython with
  | none => rw [h5] at h; exact absurd h (by simp)
  | some p5 =>
  obtain ⟨stop5, st5⟩ := p5
  rw [h5] at h
  simp only at h
  have e5 : st5.build_changes = st4.build_changes :=
    categoryStep_build _ _ _ addPython (fun _ _ => rfl) _ _ h5
  split at h
  · simp only [Option.some.injEq] at h
    subst h
    exact e5.trans (e4.trans (e3.trans (e2.trans e1)))
  cases h6 : categoryStep (reBugFix line2) line2 st5 addBugFix with
  | none => rw [h6] at h; exact absurd h (by simp)
  | some p6 =>
  obtain ⟨stop6, st6⟩ := p6
  rw [h6] at h
  simp only at h
  have e6 : st6.build_changes = st5.build_changes :=
    categoryStep_build _ _ _ addBugFix (fun _ _ => rfl) _ _ h6
  split at h
  · simp only [Option.some.injEq] at h
    subst h
    exact e6.trans (e5.trans (e4.trans (e3.trans (e2.trans e1))))
  cases h7 : categoryStep (reDeps line2) line2 st6 addDeps with
  | none => rw [h7] at h; exact absurd h (by simp)
  | some p7 =>
  obtain ⟨stop7, st7⟩ := p7
  rw [h7] at h
  simp only at h
  have e7 : st7.build_changes = st6.build_changes :=
    categoryStep_build _ _ _ addDeps (fun _ _ => rfl) _ _ h7
  split at h
  · simp only [Option.some.injEq] at h
    subst h
    exact e7.trans (e6.trans (e5.trans (e4.trans (e3.trans (e2.trans e1)))))
  have etotal : st7.build_changes = st.build_changes :=
    e7.trans (e6.trans (e5.trans (e4.trans (e3.trans (e2.trans e1)))))
  split at h
  · exact ((parse_framework_changes_effect _ _ _ h).1.2.2.2.2.1).trans etotal
  split at h
  · exact ((parse_framework_changes_effect _ _ _ h).1.2.2.2.2.1).trans etotal
  · simp only [Option.some.injEq] at h
    subst h
    exact etotal

theorem foldl_process_build (notes : List Str) :
    ∀ st st2, List.foldlM (fun st line => process_line line st) st notes = some st2 →
      st2.build_changes = st.build_changes := by
  induction notes with
  | nil =>
      intro st st2 h
      simp only [List.foldlM_nil, Option.pure_def, Option.some.injEq] at h
      subst h
      rfl
  | cons n ns ih =>
      intro st st2 h
      rw [List.foldlM_cons] at h
      cases h1 : process_line n st with
      | none => rw [h1] at h; exact absurd h (by simp)
      | some st1 =>
          rw [h1] at h
          rw [Option.bind_eq_bind, Option.some_bind'] at h
          exact (ih st1 st2 h).trans (process_line_build _ _ _ h1)

/- ---------- claim theorems ---------- -/

/-- C2: the spec claims that a failed git show is recovered (empty title,
commit silently excluded by the validity filter, run continues).  The code
instead leaves commit_lines = [] and Commit.__init__ then raises IndexError
in parse_commit_title (commit_lines[3]); moreover valid_release_note would
raise AssertionError on an empty title rather than return False.  Both crash
points are exhibited: constructing a Commit from a failed fetch is none, and
the validity filter on an empty title is none. -/
theorem claim_C2_fetch_failure_crashes :
    mkCommit none = none ∧ valid_release_note [] = none :=
  ⟨rfl, rfl⟩

/-- C3 counterexample: with every bucket empty (in particular the JavaScript
bucket), the rendered document still contains the heading "#### Javascript",
refuting the claim that every empty bucket loses its heading line. -/
theorem claim_C3_counterexample :
    containsSeq (str "#### Javascript")
      (notes_from_template [] [] [] [] [] [] [] [] []) = true := by rfl

/-- C3 amended: the renderer deletes the heading lines of the empty Build,
Bazel, Framework, Android, iOS, Bug-fixes and Dependencies sections, but the
Javascript and Python headings are never deleted; an empty bug-fixes bucket
does yield a document without the heading "### Bug fixes", and a non-empty
bug-fixes bucket keeps it. -/
theorem claim_C3_amended :
    containsSeq (str "#### Javascript")
      (notes_from_template [] [] [] [] [] [] [] [] []) = true
    ∧ containsSeq (str "#### Python")
        (notes_from_template [] [] [] [] [] [] [] [] []) = true
    ∧ containsSeq (str "### Bug fixes")
        (notes_from_template [] [] [] [] [] [] [] [] []) = false
    ∧ containsSeq (str "### Build changes")
        (notes_from_template [] [] [] [] [] [] [] [] []) = false
    ∧ containsSeq (str "### Bazel changes")
        (notes_from_template [] [] [] [] [] [] [] [] []) = false
    ∧ containsSeq (str "### Framework and core calculator improvements")
        (notes_from_template [] [] [] [] [] [] [] [] []) = false
    ∧ containsSeq (str "#### Android")
        (notes_from_template [] [] [] [] [] [] [] [] []) = false
    ∧ containsSeq (str "#### iOS")
        (notes_from_template [] [] [] [] [] [] [] [] []) = false
    ∧ containsSeq (str "### MediaPipe Dependencies")
        (notes_from_template [] [] [] [] [] [] [] [] []) = false
    ∧ containsSeq (str "### Bug fixes")
        (notes_from_template [] [str "Android x"] [] [] [] [] [] [] []) = false
    ∧ containsSeq (str "#### Android")
        (notes_from_template [] [str "Android x"] [] [] [] [] [] [] []) = true
    ∧ containsSeq (str "### Bug fixes")
        (notes_from_template [] [] [] [] [] [str "Fixed y"] [] [] []) = true :=
  ⟨rfl, rfl, rfl, rfl, rfl, rfl, rfl, rfl, rfl, rfl, rfl, rfl⟩

/-- C4 counterexample: a title beginning with lower-case "merged" is NOT
rejected by the validity filter (RE_GIT_MERGE is compiled without
re.IGNORECASE), refuting the claim that the merge pattern is matched
case-insensitively. -/
theorem claim_C4_counterexample :
    valid_release_note (str "merged foo") = some true := rfl

/-- C4 amended: the merge filter is a CASE SENSITIVE anchored "Merged"
prefix (every title starting with the exact text "Merged" is rejected, while
"merged foo" and "MERGED branch x" are retained); the formatting/internal
patterns and the Internal-change pattern are case-insensitive and anchored
at the start; "Added foo Calculator" is retained. -/
theorem claim_C4_amended :
    (∀ s : Str, valid_release_note (str "Merged" ++ s) = some false)
    ∧ valid_release_note (str "merged foo") = some true
    ∧ valid_release_note (str "MERGED branch x") = some true
    ∧ valid_release_note (str "Merged pull request 42") = some false
    ∧ valid_release_note (str "Code Formatted") = some false
    ∧ valid_release_note (str "code formatting") = some false
    ∧ valid_release_note (str "Internal cleanup change") = some false
    ∧ valid_release_note (str "iNtErNaL  change") = some false
    ∧ valid_release_note (str "Added foo Calculator") = some true := by
  refine ⟨?_, rfl, rfl, rfl, rfl, rfl, rfl, rfl, rfl⟩
  intro s
  have hm : reGitMerge (str "Merged" ++ s) = true := isPrefixOf_append_self _ _
  unfold valid_release_note
  rw [if_neg (by simp [str])]
  rw [hm]
  rfl

/-- C9 counterexample: the input ". . ." consists only of whitespace and
period characters, yet sentence does NOT raise: it returns " . " (stripping
periods exposes interior whitespace, and text[0] is then the space
character). -/
theorem claim_C9_counterexample :
    (str ". . .").all (fun c => c.isWhitespace || c == '.') = true
    ∧ sentence (str ". . .") = some (str " . ") :=
  ⟨rfl, rfl⟩

/-- C9 amended: sentence raises IndexError exactly when stripping whitespace
from both ends leaves a string consisting only of period characters (in
particular on empty and whitespace-only input); inputs that mix periods with
interior or period-protected whitespace, such as ". . .", do not raise. -/
theorem claim_C9_amended (x : Str) :
    sentence x = none ↔
      ∀ c ∈ stripChars Char.isWhitespace x, (c == '.') = true := by
  unfold sentence
  rw [← stripChars_eq_nil_iff (fun c => c == '.') (stripChars Char.isWhitespace x)]
  cases h : stripChars (fun c => c == '.') (stripChars Char.isWhitespace x) with
  | nil => simp
  | cons c cs => simp

/-- C8 counterexample: sentence strips periods from BOTH ends, which can
expose boundary whitespace, so sentence is not idempotent: on ". foo"
(which strips to a non-empty string) sentence gives " foo" but applying
sentence again gives "Foo". -/
theorem claim_C8_counterexample :
    sentence (str ". foo") = some (str " foo")
    ∧ (sentence (str ". foo")).bind sentence = some (str "Foo")
    ∧ some (str " foo") ≠ some (str "Foo") :=
  ⟨rfl, rfl, by decide⟩

/-- C8 amended: sentence strips leading and trailing whitespace, then
leading and trailing periods, then upper-cases the first character; it is
idempotent exactly on those defined inputs whose sentence value carries no
boundary whitespace (stripping periods may expose whitespace, and on such
values a second application strips further). -/
theorem claim_C8_amended (x y : Str) (h : sentence x = some y)
    (hws : stripChars Char.isWhitespace y = y) : sentence y = some y := by
  unfold sentence at h
  cases ht : stripChars (fun c => c == '.') (stripChars Char.isWhitespace x) with
  | nil => rw [ht] at h; exact absurd h (by simp)
  | cons c cs =>
      rw [ht] at h
      simp only [Option.some.injEq] at h
      have hcdot : (c == '.') = false :=
        stripChars_head_not (fun d => d == '.') (stripChars Char.isWhitespace x) c cs ht
      have hyd : stripChars (fun c => c == '.') y = y := by
        apply stripChars_eq_self
        · intro d hd
          rw [← h] at hd
          simp only [List.head?_cons, Option.some.injEq] at hd
          rw [← hd]
          exact upperChar_beq_dot c hcdot
        · intro d hd
          rw [← h] at hd
          cases cs with
          | nil =>
              simp only [List.getLast?_singleton, Option.some.injEq] at hd
              rw [← hd]
              exact upperChar_beq_dot c hcdot
          | cons c2 cs2 =>
              have hlast : (upperChar c :: c2 :: cs2).getLast? = (c :: c2 :: cs2).getLast? := by
                simp [List.getLast?_cons]
              rw [hlast] at hd
              exact stripChars_getLast_not (fun c => c == '.') _ _ (ht ▸ hd)
      unfold sentence
      rw [hws, hyd, ← h]
      simp [upperChar_idem]

/-- C8 witness: a concrete application of the amended idempotence. -/
theorem claim_C8_witness : sentence (str "Hello") = some (str "Hello") :=
  claim_C8_amended (str "hello.") (str "Hello") (by rfl) (by rfl)

/-- C7 counterexample: RE_BUG_FIX = \sfix(ed)? requires a whitespace
character right before "fix", so the title "Fixed the crash" (fix at the
very start) is NOT matched by the bug-fix rule, and matching nothing else it
is silently dropped: the bug-fix bucket stays empty. -/
theorem claim_C7_counterexample :
    reBugFix (str "Fixed the crash") = false
    ∧ process_notes [str "Fixed the crash"] =
        some { android := [], ios := [], python := [], js := [], bazel := [],
               build := [], depsList := [], bugFixes := [],
               framework := [str "Added ", str "Added "] } :=
  ⟨rfl, rfl⟩

/-- C7 amended: the bug-fix rule matches exactly the titles containing a
whitespace character immediately followed by "fix" (case-insensitively); a
title with an interior " fix", such as "Small fix of thing", is routed into
the bug-fix bucket, while a title beginning with "Fixed" is not matched. -/
theorem claim_C7_amended :
    (∀ s : Str, reBugFix s = true ↔
      ∃ (a : Str) (w : Char) (b : Str),
        strLower s = a ++ w :: (str "fix" ++ b) ∧ w.isWhitespace = true)
    ∧ process_notes [str "Small fix of thing"] =
        some { android := [], ios := [], python := [], js := [], bazel := [],
               build := [], depsList := [], bugFixes := [str "Small fix of thing"],
               framework := [str "Added ", str "Added "] } := by
  constructor
  · intro s
    exact wsImm_iff (str "fix") (strLower s)
  · rfl

/-- C5 counterexample: a title matching the Options pattern but not the
support pattern is appended BOTH to the options sub-bucket and to the
generic framework-items sub-bucket, because the else branch of
parse_framework_changes belongs only to the support test. -/
theorem claim_C5_counterexample :
    parse_framework_changes (str "Added blur Options menu") {} =
      some { added_options := [str "Added blur Options menu"],
             framework_items := [str "Added blur Options menu"] } := rfl

/-- C5 amended: in parse_framework_changes the generic framework-items
sub-bucket is filled exactly when the (possibly re-sentence-cased) title
does not match the support pattern, independently of the Options and
Calculator tests: on every non-crashing run exactly one of the support
sub-bucket and the generic framework-items sub-bucket grows, so a title
matching Options or Calculator but not support lands in its specific
sub-bucket AND in the generic one. -/
theorem claim_C5_amended (line : Str) (st : St) :
    (parse_framework_changes line st).all
      (fun st2 => ((st2.added_support == st.added_support)
                     != (st2.framework_items == st.framework_items))) = true := by
  cases h : parse_framework_changes line st with
  | none => rfl
  | some st2 =>
      obtain ⟨-, hxor⟩ := parse_framework_changes_effect _ _ _ h
      simp only [Option.all]
      rcases hxor with ⟨ha, hb⟩ | ⟨ha, hb⟩
      · have h1 : (st2.added_support == st.added_support) = true := by
          rw [ha]
          exact beq_self_eq_true _
        have h2 : (st2.framework_items == st.framework_items) = false := by
          rw [beq_eq_false_iff_ne]
          intro he
          rw [he] at hb
          omega
        rw [h1, h2]
        rfl
      · have h1 : (st2.added_support == st.added_support) = false := by
          rw [beq_eq_false_iff_ne]
          intro he
          rw [he] at hb
          omega
        have h2 : (st2.framework_items == st.framework_items) = true := by
          rw [ha]
          exact beq_self_eq_true _
        rw [h1, h2]
        rfl

/-- C6 counterexample: the synthetic first line of the framework-changes
bucket is not "Added " plus the comma-joined options entries verbatim: each
joined entry first loses its case-sensitive "Added"/"Add" occurrences (at
most two, because re.I is passed as the count argument of re.sub), leaving
"Added  blur Options to Calculator" with a double space rather than
"Added Added blur Options to Calculator". -/
theorem claim_C6_counterexample :
    process_notes [str "Added blur Options to Calculator"] =
      some { android := [], ios := [], python := [], js := [], bazel := [],
             build := [], depsList := [], bugFixes := [],
             framework := [str "Added  blur Options to Calculator",
                           str "Added  blur Options to Calculator",
                           str "Added blur Options to Calculator"] }
    ∧ str "Added  blur Options to Calculator"
        ≠ str "Added " ++ str "Added blur Options to Calculator" :=
  ⟨rfl, by decide⟩

/-- C6 amended: the framework-changes bucket is, in order, the synthetic
line "Added " plus the comma-joined options entries EACH WITH ITS FIRST TWO
CASE-SENSITIVE "Added"/"Add" OCCURRENCES REMOVED, the same synthetic line
for the calculators entries, then all generic framework items, then all
support entries; the two synthetic lines appear even when their sub-buckets
are empty, giving two degenerate "Added " lines. -/
theorem claim_C6_amended :
    (∀ (notes : List Str) (r : Result), process_notes notes = some r →
      ∃ st, process_notes_core notes = some st
        ∧ r.framework =
            [ str "Added "
                ++ List.intercalate (str ", ") (st.added_options.map stripAddTwo)
            , str "Added "
                ++ List.intercalate (str ", ") (st.added_calculators.map stripAddTwo) ]
              ++ st.framework_items ++ st.added_support)
    ∧ process_notes [] =
        some { android := [], ios := [], python := [], js := [], bazel := [],
               build := [], depsList := [], bugFixes := [],
               framework := [str "Added ", str "Added "] } := by
  constructor
  · intro notes r h
    unfold process_notes at h
    cases hc : process_notes_core notes with
    | none => rw [hc] at h; exact absurd h (by simp)
    | some st =>
        rw [hc] at h
        simp only [Option.some.injEq] at h
        subst h
        exact ⟨st, rfl, rfl⟩
  · rfl

/-- C6 witness: the general part applied to the empty note list. -/
theorem claim_C6_witness :
    ∃ st, process_notes_core ([] : List Str) = some st
      ∧ ([str "Added ", str "Added "] : List Str) =
          [ str "Added "
              ++ List.intercalate (str ", ") (st.added_options.map stripAddTwo)
          , str "Added "
              ++ List.intercalate (str ", ") (st.added_calculators.map stripAddTwo) ]
            ++ st.framework_items ++ st.added_support :=
  claim_C6_amended.1 []
    { android := [], ios := [], python := [], js := [], bazel := [],
      build := [], depsList := [], bugFixes := [],
      framework := [str "Added ", str "Added "] } rfl

/-- C1 counterexample: the title "bazel and android update" is claimed by
the Bazel bucket AND afterwards also by the Android bucket, refuting the
first-match-wins invariant: a category append does not stop processing of
the title. -/
theorem claim_C1_counterexample :
    process_notes [str "bazel and android update"] =
      some { android := [str "Bazel and android update"], ios := [],
             python := [], js := [],
             bazel := [str "Bazel and android update"], build := [],
             depsList := [], bugFixes := [],
             framework := [str "Added ", str "Added "] } := rfl

/-- C1 amended: in every category block, additions_or_updates stops the
processing of a title (continue) exactly when the title carries a framework
signal, in which case it is diverted to parse_framework_changes TWICE and no
category bucket receives it; when there is no framework signal the
sentence-cased title is appended to the category bucket and the result is
false, so the loop falls through to the later category checks and one title
can be claimed by several top-level buckets. -/
theorem claim_C1_amended (line : Str) (st : St) (add : St → Str → St) :
    additions_or_updates line st add =
      if check_fine_grained_framework_items line then
        match parse_framework_changes line st with
        | none => none
        | some st1 =>
          match parse_framework_changes line st1 with
          | none => none
          | some st2 => some (true, st2)
      else
        match sentence line with
        | none => none
        | some m => some (false, add st m) := by
  unfold additions_or_updates added_to_section_notes
  cases hc : check_fine_grained_framework_items line with
  | false =>
      simp only [hc, Bool.false_eq_true, if_false]
      cases hs : sentence line with
      | none => rfl
      | some m => rfl
  | true =>
      simp only [hc, if_true]
      cases hp : parse_framework_changes line st with
      | none => rfl
      | some st1 =>
          dsimp only
          cases hp2 : parse_framework_changes line st1 with
          | none => rfl
          | some st2 => rfl

/-- C10: no classification rule ever appends to the build bucket: for every
input note list the loop state keeps build_changes = [] and the returned
build bucket is empty; rendering the result of a representative multi-bucket
run produces a document not containing "### Build changes" (the heading of
the always-empty Build section is deleted by the renderer). -/
theorem claim_C10_build_bucket_always_empty :
    (∀ notes : List Str,
      (process_notes_core notes).all (fun st => st.build_changes.isEmpty) = true)
    ∧ (∀ notes : List Str,
      (process_notes notes).all (fun r => r.build.isEmpty) = true)
    ∧ (process_notes [str "bazel build rules", str "Small fix of thing",
         str "Updated android aar library",
         str "Added blur Options to Calculator"]).isSome = true
    ∧ (process_notes [str "bazel build rules", str "Small fix of thing",
         str "Updated android aar library",
         str "Added blur Options to Calculator"]).all
        (fun r => !(containsSeq (str "### Build changes") (renderResult r)))
        = true := by
  have hcore : ∀ notes : List Str,
      (process_notes_core notes).all (fun st => st.build_changes.isEmpty) = true := by
    intro notes
    cases h : process_notes_core notes with
    | none => rfl
    | some st =>
        have hb : st.build_changes = ({} : St).build_changes :=
          foldl_process_build notes {} st h
        simp only [Option.all]
        rw [hb]
        rfl
  refine ⟨hcore, ?_, rfl, by rfl⟩
  intro notes
  unfold process_notes
  cases h : process_notes_core notes with
  | none => rfl
  | some st =>
      have hc := hcore notes
      rw [h] at hc
      simp only [Option.all] at hc ⊢
      exact hc

/-- C9 witness: a concrete instance of the amended characterization: the
whitespace-stripped form of " .. " is all periods, so sentence raises. -/
theorem claim_C9_witness : sentence (str " .. ") = none :=
  (claim_C9_amended (str " .. ")).mpr (by decide)

/-- C7 witness: a concrete instance of the amended characterization at the
title "a fix". -/
theorem claim_C7_witness :
    ∃ (a : Str) (w : Char) (b : Str),
      strLower (str "a fix") = a ++ w :: (str "fix" ++ b)
        ∧ w.isWhitespace = true :=
  (claim_C7_amended.1 (str "a fix")).mp (by rfl)
